import Mathlib

/-!
Verification development for the `@checkend/nextjs` error-reporting SDK core.

The definitions below are a shallow embedding of the event-processing pipeline
implemented in `src/config.ts` and `src/edge.ts` (configuration store, filter-key
redactor, route/exception matcher, beforeSend callback chain, stack-trace parser)
and of the test-mode payload decoder in the testing module.  Each definition is
translated directly from the corresponding TypeScript function; JS strings are
modelled as Lean `String` (operated on through their `List Char` data), JS
`undefined`/`null` through `Option`/explicit constructors, and JS exceptions
thrown by user callbacks through an explicit result constructor.
-/

set_option maxHeartbeats 1600000
set_option maxRecDepth 16384

namespace Checkend

/-- Lowercased characters of `s`; models the effect of the JS regex `i` flag and
`String.prototype.toLowerCase()` for the ASCII keys the SDK works with. -/
def strLower (s : String) : String := String.mk (s.data.map Char.toLower)

/-- Character-list test: `pat` occurs at the start of `text`
(JS `String.prototype.startsWith`). -/
def lpre : List Char → List Char → Bool
  | [], _ => true
  | _ :: _, [] => false
  | a :: xs, b :: ys => a == b && lpre xs ys

/-- Character-list test: `pat` occurs contiguously somewhere inside the text
(JS `String.prototype.includes`, or a literal alternation branch of a RegExp
matching anywhere in the subject). -/
def lsub (pat : List Char) : List Char → Bool
  | [] => pat.isEmpty
  | c :: rest => lpre pat (c :: rest) || lsub pat rest

/-- JS `String.prototype.startsWith` on Lean strings. -/
def jsStartsWith (s pat : String) : Bool := lpre pat.data s.data

/-- JS `String.prototype.includes` on Lean strings. -/
def jsIncludes (s pat : String) : Bool := lsub pat.data s.data

/-- JS `String.prototype.slice(0, n)` on Lean strings. -/
def strTake (s : String) (n : Nat) : String := String.mk (s.data.take n)

/-- JS `a || b` for strings: the empty string is falsy. -/
def jsOrStr (a b : String) : String := if a = "" then b else a

/-- An untyped JS runtime value, as far as `sanitize` discriminates its input:
`null`, `undefined`, strings, arrays, plain objects (ordered key/value entries),
and the remaining scalars (booleans and numbers). -/
inductive JsValue where
  | vnull
  | vundefined
  | vbool (b : Bool)
  | vnum (n : Int)
  | vstr (s : String)
  | varr (items : List JsValue)
  | vobj (fields : List (String × JsValue))

/-- Property read `fields[k]` on the entry list of a JS object (first entry with
the given key; JS objects have unique keys). -/
def objGet (fields : List (String × JsValue)) (k : String) : Option JsValue :=
  (fields.find? fun kv => kv.1 == k).map fun kv => kv.2

/-- Follow a path of object keys down a `JsValue`. -/
def getPath : JsValue → List String → Option JsValue
  | v, [] => some v
  | .vobj fields, k :: rest =>
    match objGet fields k with
    | some v => getPath v rest
    | none => none
  | _, _ :: _ => none

/-- The built-in sensitive-key list `DEFAULT_FILTER_KEYS` from `src/config.ts`. -/
def DEFAULT_FILTER_KEYS : List String :=
  ["password", "passwd", "secret", "token", "api_key", "apiKey", "api-key",
   "authorization", "auth", "credentials", "session", "sessionId", "session_id",
   "credit_card", "creditCard", "card_number", "cardNumber", "cvv", "cvc", "ccv",
   "expiry", "expiration",
   "ssn", "social_security", "socialSecurity", "sin", "national_id", "nationalId",
   "private_key", "privateKey", "private-key", "access_token", "accessToken",
   "access-token", "refresh_token", "refreshToken", "refresh-token", "bearer",
   "stripe_key", "stripeKey", "aws_secret", "awsSecret", "database_url",
   "databaseUrl", "connection_string", "connectionString"]

/-- The compiled filter pattern `new RegExp(filterKeys.join('|'), 'i')` applied
to an object key.  With no filter keys the joined pattern source is empty and the
empty regex matches every string; otherwise the alternation tests true iff some
filter key occurs case-insensitively somewhere inside the key (the filter keys
are regex-literal strings, which holds for every built-in key). -/
def filterTest (keys : List String) (key : String) : Bool :=
  keys.isEmpty || keys.any fun fk => lsub (strLower fk).data (strLower key).data

/-- String-leaf handling inside `sanitizeValue`: strings longer than 10000
characters are cut to their first 10000 characters with a truncation marker. -/
def truncateStr (s : String) : String :=
  if 10000 < s.data.length then String.mk (s.data.take 10000) ++ "...[TRUNCATED]"
  else s

/-- Recursive core of `sanitize` (the inner `sanitizeValue` of `src/config.ts`),
written with an explicit remaining-depth budget so that the definition is
structurally recursive and executable: at recursion depth `d` the source checks
`d > maxDepth`, which is exactly `fuel = 0` for `fuel = maxDepth + 1 - d`, and
every recursive call moves from depth `d` to `d + 1`, i.e. from `fuel + 1` to
`fuel`.  The wrapper `sanitizeValue` below re-expresses it over the source's
`depth` parameter. -/
def sanitizeGo (keys : List String) : Nat → JsValue → JsValue
  | 0, _ => .vstr "[MAX_DEPTH]"
  | _ + 1, .vnull => .vnull
  | _ + 1, .vundefined => .vundefined
  | _ + 1, .vstr s => .vstr (truncateStr s)
  | fuel + 1, .varr items => .varr (items.map fun item => sanitizeGo keys fuel item)
  | fuel + 1, .vobj fields =>
    .vobj (fields.map fun kv =>
      if filterTest keys kv.1 then (kv.1, .vstr "[FILTERED]")
      else (kv.1, sanitizeGo keys fuel kv.2))
  | _ + 1, .vbool b => .vbool b
  | _ + 1, .vnum n => .vnum n

/-- The inner `sanitizeValue(value, depth)` of `sanitize`, at a given maximum
depth and filter-key list. -/
def sanitizeValue (keys : List String) (maxDepth : Nat) (value : JsValue)
    (depth : Nat) : JsValue :=
  sanitizeGo keys (maxDepth + 1 - depth) value

/-- One reportable event record (`CheckendEvent` in `src/config.ts`). -/
structure CheckendEvent where
  errorClass : String
  message : String
  backtrace : List String
  context : Option JsValue
  request : Option JsValue
  user : Option JsValue
  tags : Option (List String)
  fingerprint : Option String

/-- Result of invoking one user-supplied `beforeSend` callback: a replacement
event, the drop signal (JS `null`), or a thrown exception. -/
inductive CbResult where
  | ok (e : CheckendEvent)
  | drop
  | thrown

/-- A user-supplied `beforeSend` transform (`BeforeSendCallback`); JS exceptions
it may throw are made explicit in the result type. -/
def Callback : Type := CheckendEvent → CbResult

/-- The `beforeSend` configuration field: a single callback or an array
(`BeforeSendCallback | BeforeSendCallback[]`). -/
inductive BeforeSendField where
  | single (cb : Callback)
  | multi (cbs : List Callback)

/-- An entry of `ignoredRoutes` / `ignoredExceptions`: a plain string or a
RegExp, the latter embedded as the Boolean predicate its `test` method denotes
on the subject string. -/
inductive IgnoreRule where
  | strRule (s : String)
  | patRule (p : String → Bool)

/-- One emitted log line of the configured logger: level and message. -/
structure LogLine where
  level : String
  message : String
deriving DecidableEq

/-- The `CheckendNextConfig` options/configuration record.  Optional JS fields
are `Option`s (`none` = property absent/undefined); `init` fills the documented
defaults in, so the same type serves for the options argument and for the
merged live configuration, exactly as in the source. -/
structure CheckendNextConfig where
  apiKey : String
  endpoint : Option String
  environment : Option String
  appName : Option String
  revision : Option String
  enableClient : Option Bool
  enableServer : Option Bool
  enableEdge : Option Bool
  ignoredRoutes : Option (List IgnoreRule)
  ignoredExceptions : Option (List IgnoreRule)
  filterKeys : Option (List String)
  useDefaultFilterKeys : Option Bool
  beforeSend : Option BeforeSendField
  debug : Option Bool
  logger : Option Unit
  timeout : Option Nat
  connectTimeout : Option Nat
  maxQueueSize : Option Nat
  shutdownTimeout : Option Nat

/-- The defaults object spread under the user options inside `init`. -/
def mergeDefaults (options : CheckendNextConfig) : CheckendNextConfig :=
  { options with
    enableClient := some (options.enableClient.getD true)
    enableServer := some (options.enableServer.getD true)
    enableEdge := some (options.enableEdge.getD true)
    debug := some (options.debug.getD false)
    useDefaultFilterKeys := some (options.useDefaultFilterKeys.getD true)
    timeout := some (options.timeout.getD 30000)
    connectTimeout := some (options.connectTimeout.getD 10000)
    maxQueueSize := some (options.maxQueueSize.getD 1000)
    shutdownTimeout := some (options.shutdownTimeout.getD 5000) }

/-- The configuration echoed on the `init` debug log line: the merged
configuration with `apiKey` replaced by `apiKey.slice(0, 8) + '...'`. -/
def echoOf (cfg : CheckendNextConfig) : CheckendNextConfig :=
  { cfg with apiKey := strTake cfg.apiKey 8 ++ "..." }

/-- The `init` entry point of the configuration store.  It rejects a falsy
(empty) `apiKey` with the `ConfigurationError` message, merges the options over
the defaults, and — when the merged `debug` flag is truthy — emits one
debug-level log line echoing the merged configuration with the truncated
credential.  The emitted echo is returned alongside the merged configuration so
that the side effect is observable. -/
def init (options : CheckendNextConfig) :
    Except String (CheckendNextConfig × Option CheckendNextConfig) :=
  if options.apiKey = "" then .error "Checkend: apiKey is required"
  else
    .ok (mergeDefaults options,
      if (mergeDefaults options).debug = some true then some (echoOf (mergeDefaults options))
      else none)

/-- One rule of `shouldIgnoreRoute` applied to a route: a string rule matches on
exact equality or on the route starting with the rule; a pattern rule matches if
the RegExp tests true against the route. -/
def routeRuleMatches (route : String) : IgnoreRule → Bool
  | .strRule s => route == s || jsStartsWith route s
  | .patRule p => p route

/-- `shouldIgnoreRoute(route)` from `src/config.ts`: false when the
ignored-route list is absent or empty, otherwise an OR over all rules. -/
def shouldIgnoreRoute (cfg : CheckendNextConfig) (route : String) : Bool :=
  match cfg.ignoredRoutes with
  | none => false
  | some rules => if rules.isEmpty then false else rules.any (routeRuleMatches route)

/-- A JS `Error` as far as the matcher and the edge notifier read it. -/
structure JsError where
  name : String
  message : String
  stack : Option String

/-- One rule of `shouldIgnoreException` applied to an error: a string rule
matches if the error name equals the rule or the message contains the rule; a
pattern rule matches if the RegExp tests true against the composite string
`"{name}: {message}"`. -/
def excRuleMatches (error : JsError) : IgnoreRule → Bool
  | .strRule s => error.name == s || jsIncludes error.message s
  | .patRule p => p (error.name ++ ": " ++ error.message)

/-- `shouldIgnoreException(error)` from `src/config.ts`: false when the
ignored-exception list is absent or empty, otherwise an OR over all rules. -/
def shouldIgnoreException (cfg : CheckendNextConfig) (error : JsError) : Bool :=
  match cfg.ignoredExceptions with
  | none => false
  | some rules => if rules.isEmpty then false else rules.any (excRuleMatches error)

/-- The `[...new Set(list)]` deduplication used by `getFilterKeys`: keeps the
first occurrence of each element, in insertion order. -/
def jsSetDedup (l : List String) : List String :=
  l.foldl (fun acc x => if x ∈ acc then acc else acc ++ [x]) []

/-- `getFilterKeys()` from `src/config.ts`: built-ins merged with the custom
keys and deduplicated, unless `useDefaultFilterKeys` is exactly `false`, in
which case only the custom keys (defaulted to `[]`) are returned. -/
def getFilterKeys (cfg : CheckendNextConfig) : List String :=
  let customKeys := cfg.filterKeys.getD []
  if cfg.useDefaultFilterKeys ≠ some false then
    jsSetDedup (DEFAULT_FILTER_KEYS ++ customKeys)
  else customKeys

/-- `sanitize(data, maxDepth)` from `src/config.ts`, reading the effective
filter keys of the live configuration and running the recursive redaction from
depth 0. -/
def sanitize (cfg : CheckendNextConfig) (maxDepth : Nat) (data : JsValue) : JsValue :=
  sanitizeValue (getFilterKeys cfg) maxDepth data 0

/-- The error log line emitted when a `beforeSend` callback throws. -/
def beforeSendErrorLine : LogLine :=
  { level := "error", message := "beforeSend callback threw an error:" }

/-- One iteration of the `applyBeforeSend` loop.  The accumulator carries the
running `result` together with the log lines emitted so far.  A `null` running
result makes the iteration a no-op (the source `break`s); a callback that
returns an event or `null` replaces the running result; a callback that throws
leaves the pre-failure result unchanged and logs at error level. -/
def chainStep (acc : Option CheckendEvent × List LogLine) (cb : Callback) :
    Option CheckendEvent × List LogLine :=
  match acc.1 with
  | none => acc
  | some e =>
    match cb e with
    | .ok e2 => (some e2, acc.2)
    | .drop => (none, acc.2)
    | .thrown => (some e, acc.2 ++ [beforeSendErrorLine])

/-- The loop of `applyBeforeSend` over an already-normalized callback array,
started from the given event. -/
def runCbs (cbs : List Callback) (event : CheckendEvent) :
    Option CheckendEvent × List LogLine :=
  cbs.foldl chainStep (some event, [])

/-- The `Array.isArray` normalization of the `beforeSend` field. -/
def normalizeBeforeSend : BeforeSendField → List Callback
  | .single cb => [cb]
  | .multi cbs => cbs

/-- `applyBeforeSend(event)` from `src/config.ts`, returning the final
event-or-drop result together with the log lines emitted along the way. -/
def applyBeforeSend (cfg : CheckendNextConfig) (event : CheckendEvent) :
    Option CheckendEvent × List LogLine :=
  match cfg.beforeSend with
  | none => (some event, [])
  | some bs => runCbs (normalizeBeforeSend bs) event

/-- JS regex `\s` (core whitespace class; the astral Unicode members never occur
in stack traces). -/
def isSpaceC (c : Char) : Bool :=
  c = ' ' || c = '\t' || c = '\n' || c = '\r' || c = '\x0b' || c = '\x0c'

/-- JS regex `\d`. -/
def isDigitC (c : Char) : Bool := '0' ≤ c && c ≤ '9'

/-- JS regex `.`: any character except a line terminator. -/
def isDotC (c : Char) : Bool := !(c = '\n' || c = '\r')

/-- The tail `(.+?):(\d+)(?::\d+)?\)?` of the stack-line regex, matched against
a suffix of the line: the lazy `(.+?)` grows one (non-terminator) character at a
time until a `:` followed by a digit comes next; the greedy `(\d+)` then takes
the maximal digit run, and the two trailing optional pieces always succeed, so
no further backtracking can occur.  Returns the captures (file, digits). -/
def coreGo (acc : List Char) : List Char → Option (List Char × List Char)
  | [] => none
  | c :: rest =>
    if isDotC c then
      match rest with
      | ':' :: d :: _ =>
        if isDigitC d then some (acc ++ [c], (rest.drop 1).takeWhile isDigitC)
        else coreGo (acc ++ [c]) rest
      | _ => coreGo (acc ++ [c]) rest
    else none

/-- The optional method group `(?:(.+?)\s+\()?` followed by the core, tried with
the group present: the lazy `(.+?)` grows one character at a time; after the
candidate method the inner `\s+` must be a nonempty whitespace run — since `(`
is not whitespace only the maximal run can precede the `(`, so greedy
backtracking inside `\s+` degenerates to taking the full run — then a literal
`(` and the core.  On failure of the whole remainder the method capture grows
(regex backtracking into a lazy group); exhaustion means the group cannot match.
Returns the captures (method, file, digits). -/
def tryA (acc : List Char) : List Char → Option (List Char × List Char × List Char)
  | [] => none
  | c :: rest =>
    if isDotC c then
      let acc2 := acc ++ [c]
      let w := (rest.takeWhile isSpaceC).length
      let attempt :=
        if w = 0 then none
        else
          match rest.drop w with
          | '(' :: after => (coreGo [] after).map fun fd => (acc2, fd.1, fd.2)
          | _ => none
      match attempt with
      | some r => some r
      | none => tryA acc2 rest
    else none

/-- Body of the stack-line regex after `at\s+`: the greedy optional group is
preferred (tried with the method group first), falling back to the bare
`file:line` core. Captures are (optional method, file, digits). -/
def tryBody (l : List Char) : Option (Option (List Char) × List Char × List Char) :=
  match tryA [] l with
  | some r => some (some r.1, r.2.1, r.2.2)
  | none => (coreGo [] l).map fun fd => (none, fd.1, fd.2)

/-- The greedy `\s+` after the literal `at`, with backtracking: amounts are
tried from the maximal whitespace run down to one character; zero whitespace
fails the match at this start position. `rest` is the text following `at`. -/
def tryWs : Nat → List Char → Option (Option (List Char) × List Char × List Char)
  | 0, _ => none
  | k + 1, rest =>
    match tryBody (rest.drop (k + 1)) with
    | some r => some r
    | none => tryWs k rest

/-- The unanchored scan of JS `line.match(re)`: start positions are tried left
to right; a start position needs the literal characters `a`, `t` and at least
one whitespace character. Returns the first (leftmost) full-match captures. -/
def scanMatch : List Char → Option (Option (List Char) × List Char × List Char)
  | [] => none
  | c :: rest =>
    let here :=
      if c = 'a' then
        match rest with
        | 't' :: rest2 => tryWs (rest2.takeWhile isSpaceC).length rest2
        | _ => none
      else none
    match here with
    | some r => some r
    | none => scanMatch rest

/-- A structured backtrace frame as produced by `parseStackTrace`. -/
structure Frame where
  file : String
  method : String
  number : Nat
deriving DecidableEq

/-- JS `parseInt(digits, 10) || 0`: the captured digit run parsed as a decimal
number, defaulting to 0 when the parse fails (for a `\d+` capture that branch
is dead, and a parsed 0 is mapped to 0 by `|| 0` as well). -/
def jsParseIntOr0 (ds : List Char) : Nat :=
  if !ds.isEmpty && ds.all isDigitC then
    ds.foldl (fun a c => a * 10 + (c.toNat - 48)) 0
  else 0

/-- One line of `parseStackTrace`:
`line.match(/at\s+(?:(.+?)\s+\()?(.+?):(\d+)(?::\d+)?\)?/)` via the backtracking
scan above, with the source's defaulting of the optional method capture
(`match[1] || '<anonymous>'`, where an absent group is falsy), of the file
(`match[2] || '<unknown>'`) and of the parsed line number. -/
def matchLine (line : List Char) : Option Frame :=
  (scanMatch line).map fun cap =>
    { method := jsOrStr (String.mk (cap.1.getD [])) "<anonymous>"
      file := jsOrStr (String.mk cap.2.1) "<unknown>"
      number := jsParseIntOr0 cap.2.2 }

/-- JS `String.prototype.split('\n')` on the character list of a string. -/
def splitOnNl : List Char → List (List Char)
  | [] => [[]]
  | c :: rest =>
    match splitOnNl rest with
    | [] => [[c]]
    | h :: t => if c = '\n' then [] :: h :: t else (c :: h) :: t

/-- `parseStackTrace(stack)` from `src/edge.ts`: `undefined` (and, through the
same falsiness check, the empty string) yields no frames; otherwise the first
line is discarded and each remaining line that matches the stack-line regex
contributes one frame, in order. -/
def parseStackTrace (stack : Option String) : List Frame :=
  match stack with
  | none => []
  | some s =>
    ((splitOnNl s.data).drop 1).foldl
      (fun bt line =>
        match matchLine line with
        | some f => bt ++ [f]
        | none => bt) []

/-- The options bag accepted by the edge `notify` / `notifySync` (request
handling elided: the round-trip claim does not involve the request field, which
is only attached when a `Request` is supplied). -/
structure NotifyOptions where
  context : Option JsValue
  user : Option JsValue
  tags : Option (List String)
  fingerprint : Option String

/-- The outbound `EdgeNotice` payload as far as the interception round-trip
reads it back (the constant notifier block and the optional request descriptor
carry no event data). -/
structure EdgeNotice where
  error_class : String
  message : String
  backtrace : List Frame
  context : Option JsValue
  user : Option JsValue
  tags : Option (List String)
  fingerprint : Option String

/-- The notice constructed by the edge `notify` before JSON-encoding it into
the transport body (`src/edge.ts`). -/
def buildEdgeNotice (error : JsError) (options : NotifyOptions) : EdgeNotice :=
  { error_class := error.name
    message := error.message
    backtrace := parseStackTrace error.stack
    context := options.context
    user := options.user
    tags := options.tags
    fingerprint := options.fingerprint }

/-- A captured notice decoded by the test-mode transport interceptor. -/
structure CapturedNotice where
  errorClass : String
  message : String
  backtrace : List Frame
  context : Option JsValue
  user : Option JsValue
  tags : Option (List String)
  fingerprint : Option String
  runtime : String

/-- The decoding step of `createMockFetch` applied to an intercepted edge
payload: `JSON.parse` of `JSON.stringify` reproduces the record (undefined
fields dropped and re-read as undefined), so the interceptor's field logic acts
directly on the notice: `payload.error_class || payload.errorClass || 'Error'`
(an `EdgeNotice` has no `errorClass` property, so an empty `error_class` falls
through to the literal `'Error'`), `payload.message || ''`,
`payload.backtrace || []` (an array is always truthy), and the remaining fields
verbatim; the runtime tag is inferred from the call site. -/
def decodeCapturedNotice (payload : EdgeNotice) (runtime : String) : CapturedNotice :=
  { errorClass := jsOrStr (jsOrStr payload.error_class "") "Error"
    message := jsOrStr payload.message ""
    backtrace := payload.backtrace
    context := payload.context
    user := payload.user
    tags := payload.tags
    fingerprint := payload.fingerprint
    runtime := runtime }

/-- An options record with no optional field set (and a placeholder credential);
concrete test configurations below are built from it. -/
def baseOpts : CheckendNextConfig :=
  { apiKey := "", endpoint := none, environment := none, appName := none
    revision := none, enableClient := none, enableServer := none
    enableEdge := none, ignoredRoutes := none, ignoredExceptions := none
    filterKeys := none, useDefaultFilterKeys := none, beforeSend := none
    debug := none, logger := none, timeout := none, connectTimeout := none
    maxQueueSize := none, shutdownTimeout := none }

/-- A concrete event with message `"msg"` for the callback-chain scenarios. -/
def baseEvent : CheckendEvent :=
  { errorClass := "Error", message := "msg", backtrace := [], context := none
    request := none, user := none, tags := none, fingerprint := none }

/-- A `beforeSend` transform appending a suffix to the event message. -/
def appendCb (s : String) : Callback :=
  fun e => .ok { e with message := e.message ++ s }

/-- A `beforeSend` transform that throws on every input. -/
def throwCb : Callback := fun _ => .thrown

/-- A `beforeSend` transform that returns `null` on every input. -/
def dropCb : Callback := fun _ => .drop

/-- Configuration with the two-element append chain. -/
def msgCfg : CheckendNextConfig :=
  { baseOpts with beforeSend := some (.multi [appendCb "1", appendCb "2"]) }

/-- Configuration whose only callback throws. -/
def throwCfg : CheckendNextConfig :=
  { baseOpts with beforeSend := some (.multi [throwCb]) }

/-- Configuration with an empty callback array (the throwing chain with the
throwing callback removed). -/
def emptyChainCfg : CheckendNextConfig :=
  { baseOpts with beforeSend := some (.multi []) }

/-- Configuration dropping every event and then appending (the suffix must
never run). -/
def dropCfg : CheckendNextConfig :=
  { baseOpts with beforeSend := some (.multi [dropCb, appendCb "2"]) }

/-- The drop chain with the suffix after the dropping callback removed. -/
def dropCfgTrunc : CheckendNextConfig :=
  { baseOpts with beforeSend := some (.multi [dropCb]) }

/-- Configuration with the ignored-route rule list `['/health']`. -/
def healthCfg : CheckendNextConfig :=
  { baseOpts with ignoredRoutes := some [.strRule "/health"] }

/-- Configuration with the ignored-exception rule list `['TypeError']`. -/
def typeErrorCfg : CheckendNextConfig :=
  { baseOpts with ignoredExceptions := some [.strRule "TypeError"] }

/-- Configuration with the ignored-exception rule list `[/^Error: ECONNRE/]`
(the RegExp embedded as its anchored-at-start literal test). -/
def econnCfg : CheckendNextConfig :=
  { baseOpts with
    ignoredExceptions := some [.patRule fun s => lpre "Error: ECONNRE".data s.data] }

/-- Configuration with the default filter keys disabled and no custom keys. -/
def noKeysCfg : CheckendNextConfig :=
  { baseOpts with useDefaultFilterKeys := some false }

/-- Options with a short (one-character) credential and debug logging on. -/
def shortKeyOpts : CheckendNextConfig :=
  { baseOpts with apiKey := "k", debug := some true }

/-- Options with a 12-character credential and debug logging on. -/
def longKeyOpts : CheckendNextConfig :=
  { baseOpts with apiKey := "abcdefgh1234", debug := some true }

/-- A concrete error with an empty `name` (JS allows reassigning `name`). -/
def emptyNameError : JsError := { name := "", message := "boom", stack := none }

/-- A concrete `TypeError`. -/
def typeError : JsError := { name := "TypeError", message := "bad", stack := none }

/-- A concrete `Error` whose message is `'ECONNRESET'`. -/
def econnError : JsError := { name := "Error", message := "ECONNRESET", stack := none }

/-- A concrete `Error` whose message is `'Generic error'`. -/
def genericError : JsError := { name := "Error", message := "Generic error", stack := none }

/-- Notify options carrying a tag list and a fingerprint. -/
def taggedOptions : NotifyOptions :=
  { context := none, user := none, tags := some ["t1", "t2"], fingerprint := some "fp" }

/-- A one-key object holding a password. -/
def pwObj : JsValue := .vobj [("password", .vstr "x")]

/-- A two-level nested object for the depth-ceiling scenario. -/
def deepObj : JsValue := .vobj [("a", .vobj [("b", .vstr "x")])]

/-- A prefix is no longer than the text it starts. -/
theorem lpre_length {p l : List Char} (h : lpre p l = true) : p.length ≤ l.length := by
  induction p generalizing l with
  | nil => simp
  | cons a xs ih =>
    cases l with
    | nil => simp [lpre] at h
    | cons b ys =>
      simp only [lpre, Bool.and_eq_true] at h
      have := ih h.2
      simp only [List.length_cons]
      omega

/-- A contiguous occurrence is no longer than the text containing it. -/
theorem lsub_length {p l : List Char} (h : lsub p l = true) : p.length ≤ l.length := by
  induction l with
  | nil =>
    simp only [lsub, List.isEmpty_iff] at h
    simp [h]
  | cons c rest ih =>
    simp only [lsub, Bool.or_eq_true] at h
    rcases h with h | h
    · exact lpre_length h
    · have := ih h
      simp only [List.length_cons]
      omega

/-- Every list starts itself. -/
theorem lpre_refl (l : List Char) : lpre l l = true := by
  induction l with
  | nil => rfl
  | cons a xs ih => simp [lpre, ih]

/-- Every list occurs inside itself. -/
theorem lsub_refl (l : List Char) : lsub l l = true := by
  cases l with
  | nil => rfl
  | cons c rest => simp [lsub, lpre_refl]

/-- A key belonging to the filter-key list is matched by the compiled pattern. -/
theorem filterTest_of_mem {keys : List String} {k : String} (h : k ∈ keys) :
    filterTest keys k = true := by
  simp only [filterTest, Bool.or_eq_true, List.any_eq_true]
  exact Or.inr ⟨k, h, lsub_refl _⟩

/-- Once the running result is the drop signal, the rest of the callback fold is
inert (the source `break`s out of the loop). -/
theorem chainFold_none (l : List Callback) (g : List LogLine) :
    l.foldl chainStep (none, g) = (none, g) := by
  induction l with
  | nil => rfl
  | cons cb rest ih => simpa [chainStep] using ih

/-- One chain step only appends to the log component. -/
theorem chainStep_logs (v : Option CheckendEvent) (g : List LogLine) (cb : Callback) :
    chainStep (v, g) cb = ((chainStep (v, []) cb).1, g ++ (chainStep (v, []) cb).2) := by
  cases v with
  | none => simp [chainStep]
  | some e => cases h : cb e <;> simp [chainStep, h]

/-- The whole callback fold only appends to the log component; in particular the
event component is independent of previously accumulated log lines. -/
theorem chainFold_logs (l : List Callback) (v : Option CheckendEvent) (g : List LogLine) :
    l.foldl chainStep (v, g)
      = ((l.foldl chainStep (v, [])).1, g ++ (l.foldl chainStep (v, [])).2) := by
  induction l generalizing v g with
  | nil => simp
  | cons cb rest ih =>
    simp only [List.foldl_cons]
    rw [chainStep_logs]
    rw [ih (chainStep (v, []) cb).1 (g ++ (chainStep (v, []) cb).2),
      ih (chainStep (v, []) cb).1 (chainStep (v, []) cb).2]
    simp

/-- The event component of the fold does not depend on already-emitted logs. -/
theorem chainFold_fst (l : List Callback) (v : Option CheckendEvent)
    (g g' : List LogLine) :
    (l.foldl chainStep (v, g)).1 = (l.foldl chainStep (v, g')).1 := by
  rw [chainFold_logs l v g, chainFold_logs l v g']

/-- Key lookup commutes with a value-rewriting map over the entries. -/
theorem find?_map_entry (fields : List (String × JsValue)) (k : String)
    (g : String × JsValue → JsValue) :
    (fields.map fun kv => (kv.1, g kv)).find? (fun kv => kv.1 == k)
      = (fields.find? fun kv => kv.1 == k).map fun kv => (kv.1, g kv) := by
  induction fields with
  | nil => rfl
  | cons a rest ih =>
    by_cases h : (a.1 == k) = true
    · simp [List.find?_cons_of_pos, h]
    · simp only [Bool.not_eq_true] at h
      simp [List.find?_cons_of_neg, h, ih]

/-- Property read through a value-rewriting map over the entries. -/
theorem objGet_map (fields : List (String × JsValue)) (k : String)
    (g : String × JsValue → JsValue) :
    objGet (fields.map fun kv => (kv.1, g kv)) k
      = (fields.find? fun kv => kv.1 == k).map g := by
  simp [objGet, find?_map_entry, Option.map_map]
  rfl

/-- Unfolding of the sanitizer on an object with remaining budget. -/
theorem sanitizeGo_vobj (keys : List String) (fuel : Nat)
    (fields : List (String × JsValue)) :
    sanitizeGo keys (fuel + 1) (.vobj fields)
      = .vobj (fields.map fun kv =>
          (kv.1, if filterTest keys kv.1 then JsValue.vstr "[FILTERED]"
                 else sanitizeGo keys fuel kv.2)) := by
  simp only [sanitizeGo]
  congr 1
  apply List.map_congr_left
  intro kv _
  by_cases h : filterTest keys kv.1 = true <;> simp [h]

/-- Core of C1: along any object path of non-matching keys that fits under the
remaining budget, a key matched by the filter pattern is redacted. -/
theorem sanitizeGo_filtered_path (keys : List String) (k0 : String)
    (hk0 : filterTest keys k0 = true) :
    ∀ (p : List String) (v : JsValue) (fuel : Nat) (fields : List (String × JsValue))
      (w : JsValue),
      getPath v p = some (.vobj fields) →
      p.length < fuel →
      (∀ k ∈ p, filterTest keys k = false) →
      objGet fields k0 = some w →
      getPath (sanitizeGo keys fuel v) (p ++ [k0]) = some (.vstr "[FILTERED]") := by
  intro p
  induction p with
  | nil =>
    intro v fuel fields w hpath hlen hclean hget
    simp only [getPath, Option.some.injEq] at hpath
    subst hpath
    cases fuel with
    | zero => omega
    | succ f =>
      rw [sanitizeGo_vobj]
      obtain ⟨kv0, hfind, hval⟩ :
          ∃ kv0, (fields.find? fun kv => kv.1 == k0) = some kv0 ∧ kv0.2 = w := by
        simp only [objGet, Option.map_eq_some'] at hget
        obtain ⟨kv0, h1, h2⟩ := hget
        exact ⟨kv0, h1, h2⟩
      have hbeq := List.find?_some hfind
      have hkey : kv0.1 = k0 := beq_iff_eq.mp hbeq
      simp only [List.nil_append, getPath, objGet_map, hfind, Option.map_some',
        hkey, hk0, if_pos]
  | cons k rest ih =>
    intro v fuel fields w hpath hlen hclean hget
    cases v with
    | vobj fields0 =>
      simp only [getPath] at hpath
      cases hv : objGet fields0 k with
      | none => rw [hv] at hpath; simp at hpath
      | some v1 =>
        rw [hv] at hpath
        cases fuel with
        | zero => simp at hlen
        | succ f =>
          rw [sanitizeGo_vobj]
          obtain ⟨kv1, hfind, hval⟩ :
              ∃ kv1, (fields0.find? fun kv => kv.1 == k) = some kv1 ∧ kv1.2 = v1 := by
            simp only [objGet, Option.map_eq_some'] at hv
            obtain ⟨kv1, h1, h2⟩ := hv
            exact ⟨kv1, h1, h2⟩
          have hbeq := List.find?_some hfind
          have hkey : kv1.1 = k := beq_iff_eq.mp hbeq
          have hkclean : filterTest keys k = false := hclean k (by simp)
          simp only [List.cons_append, getPath, objGet_map, hfind, Option.map_some',
            hkey, hkclean, Bool.false_eq_true, if_neg, hval]
          exact ih v1 f fields w hpath (by simp at hlen; omega)
            (fun k' hk' => hclean k' (by simp [hk'])) hget
    | vnull => simp [getPath] at hpath
    | vundefined => simp [getPath] at hpath
    | vbool b => simp [getPath] at hpath
    | vnum n => simp [getPath] at hpath
    | vstr s => simp [getPath] at hpath
    | varr items => simp [getPath] at hpath

/-- Core of C3: a subtree sitting exactly at the depth ceiling is replaced by
the max-depth marker. -/
theorem sanitizeGo_maxdepth_path (keys : List String) :
    ∀ (p : List String) (v sub : JsValue),
      getPath v p = some sub →
      (∀ k ∈ p, filterTest keys k = false) →
      getPath (sanitizeGo keys p.length v) p = some (.vstr "[MAX_DEPTH]") := by
  intro p
  induction p with
  | nil => intro v sub _ _; rfl
  | cons k rest ih =>
    intro v sub hpath hclean
    cases v with
    | vobj fields0 =>
      simp only [getPath] at hpath
      cases hv : objGet fields0 k with
      | none => rw [hv] at hpath; simp at hpath
      | some v1 =>
        rw [hv] at hpath
        simp only [List.length_cons]
        rw [sanitizeGo_vobj]
        obtain ⟨kv1, hfind, hval⟩ :
            ∃ kv1, (fields0.find? fun kv => kv.1 == k) = some kv1 ∧ kv1.2 = v1 := by
          simp only [objGet, Option.map_eq_some'] at hv
          obtain ⟨kv1, h1, h2⟩ := hv
          exact ⟨kv1, h1, h2⟩
        have hbeq := List.find?_some hfind
        have hkey : kv1.1 = k := beq_iff_eq.mp hbeq
        have hkclean : filterTest keys k = false := hclean k (by simp)
        simp only [getPath, objGet_map, hfind, Option.map_some', hkey, hkclean,
          Bool.false_eq_true, if_neg, hval]
        exact ih v1 sub hpath fun k' hk' => hclean k' (by simp [hk'])
    | vnull => simp [getPath] at hpath
    | vundefined => simp [getPath] at hpath
    | vbool b => simp [getPath] at hpath
    | vnum n => simp [getPath] at hpath
    | vstr s => simp [getPath] at hpath
    | varr items => simp [getPath] at hpath

/-- The push-loop of `parseStackTrace` is an in-order `filterMap`. -/
theorem foldl_push_filterMap (ls : List (List Char)) (acc : List Frame) :
    (ls.foldl (fun bt line =>
        match matchLine line with
        | some f => bt ++ [f]
        | none => bt) acc)
      = acc ++ ls.filterMap matchLine := by
  induction ls generalizing acc with
  | nil => simp
  | cons l rest ih =>
    simp only [List.foldl_cons, List.filterMap_cons]
    cases h : matchLine l with
    | none => simp [h, ih]
    | some f => simp [h, ih]

/-- C1: for a live configuration whose effective filter key set contains
`"password"`, sanitizing an object that reachably contains a `"password"` key at
nesting depth at most `maxDepth` (reachably: the keys on the way are not
themselves matched by the filter pattern — a matched ancestor key is redacted
whole, per the second conjunct) yields the fixed marker `'[FILTERED]'` at that
key; moreover at depth at most `maxDepth` a mapping-like object is rewritten
key-by-key — matching keys replaced by the marker, non-matching keys recursed
into at depth + 1 — and `null`/`undefined` and non-string scalars pass through
unchanged. -/
theorem sanitize_filters_password (cfg : CheckendNextConfig) (maxDepth : Nat)
    (o : JsValue) (p : List String) (fields : List (String × JsValue)) (w : JsValue)
    (hmem : "password" ∈ getFilterKeys cfg)
    (hpath : getPath o p = some (.vobj fields))
    (hlen : p.length ≤ maxDepth)
    (hclean : ∀ k ∈ p, filterTest (getFilterKeys cfg) k = false)
    (hpw : objGet fields "password" = some w) :
    getPath (sanitize cfg maxDepth o) (p ++ ["password"]) = some (.vstr "[FILTERED]")
    ∧ (∀ (d : Nat) (fs : List (String × JsValue)), d ≤ maxDepth →
        sanitizeValue (getFilterKeys cfg) maxDepth (.vobj fs) d
          = .vobj (fs.map fun kv =>
              (kv.1, if filterTest (getFilterKeys cfg) kv.1 then JsValue.vstr "[FILTERED]"
                     else sanitizeValue (getFilterKeys cfg) maxDepth kv.2 (d + 1))))
    ∧ (∀ d : Nat, d ≤ maxDepth →
        sanitizeValue (getFilterKeys cfg) maxDepth .vnull d = .vnull
        ∧ sanitizeValue (getFilterKeys cfg) maxDepth .vundefined d = .vundefined
        ∧ (∀ b, sanitizeValue (getFilterKeys cfg) maxDepth (.vbool b) d = .vbool b)
        ∧ (∀ n, sanitizeValue (getFilterKeys cfg) maxDepth (.vnum n) d = .vnum n)) := by
  refine ⟨?_, ?_, ?_⟩
  · exact sanitizeGo_filtered_path _ _ (filterTest_of_mem hmem) p o (maxDepth + 1)
      fields w hpath (by omega) hclean hpw
  · intro d fs hd
    have hfd : maxDepth + 1 - d = (maxDepth - d) + 1 := by omega
    rw [sanitizeValue, hfd, sanitizeGo_vobj]
    have h2 : maxDepth - d = maxDepth + 1 - (d + 1) := by omega
    rw [h2]
    rfl
  · intro d hd
    have hfd : maxDepth + 1 - d = (maxDepth - d) + 1 := by omega
    refine ⟨?_, ?_, fun b => ?_, fun n => ?_⟩ <;> rw [sanitizeValue, hfd] <;> rfl

/-- C1 witness: the default configuration filters a top-level password. -/
theorem sanitize_filters_password_witness :
    getPath (sanitize baseOpts 10 pwObj) ["password"] = some (.vstr "[FILTERED]") :=
  (sanitize_filters_password baseOpts 10 pwObj [] [("password", .vstr "x")] (.vstr "x")
    (by decide) rfl (by simp) (by simp) rfl).1

/-- C3: the sanitizer is a total function of its finite-depth input (it is
defined by structural recursion in this embedding, so it terminates without
throwing); every subtree reached at recursion depth exceeding `maxDepth` is
replaced by the fixed `'[MAX_DEPTH]'` marker instead of being traversed, and in
particular a value sitting under a non-matching key path of length
`maxDepth + 1` shows up as the marker in the output. -/
theorem sanitize_depth_ceiling (cfg : CheckendNextConfig) (maxDepth : Nat)
    (o sub : JsValue) (p : List String)
    (hlen : p.length = maxDepth + 1)
    (hpath : getPath o p = some sub)
    (hclean : ∀ k ∈ p, filterTest (getFilterKeys cfg) k = false) :
    (∀ (v : JsValue) (d : Nat), maxDepth < d →
        sanitizeValue (getFilterKeys cfg) maxDepth v d = .vstr "[MAX_DEPTH]")
    ∧ getPath (sanitize cfg maxDepth o) p = some (.vstr "[MAX_DEPTH]") := by
  constructor
  · intro v d hd
    have h0 : maxDepth + 1 - d = 0 := by omega
    rw [sanitizeValue, h0]
    rfl
  · have h := sanitizeGo_maxdepth_path (getFilterKeys cfg) p o sub hpath hclean
    rw [hlen] at h
    exact h

/-- C3 witness: with `maxDepth = 1` the value two keys deep is replaced by the
max-depth marker. -/
theorem sanitize_depth_ceiling_witness :
    getPath (sanitize baseOpts 1 deepObj) ["a", "b"] = some (.vstr "[MAX_DEPTH]") :=
  (sanitize_depth_ceiling baseOpts 1 deepObj (.vstr "x") ["a", "b"] rfl rfl
    (by decide)).2

/-- C10: with `useDefaultFilterKeys` set to `false` and no (or empty) custom
filter keys, `getFilterKeys` returns the empty list, the RegExp compiled from
the empty join matches every key, and `sanitize` therefore replaces the value
at every key of every mapping-like object within the depth ceiling by
`'[FILTERED]'` — it filters everything rather than nothing. -/
theorem empty_filter_keys_filter_everything (cfg : CheckendNextConfig)
    (h1 : cfg.useDefaultFilterKeys = some false)
    (h2 : cfg.filterKeys = none ∨ cfg.filterKeys = some []) :
    getFilterKeys cfg = []
    ∧ (∀ k, filterTest (getFilterKeys cfg) k = true)
    ∧ (∀ (maxDepth d : Nat) (fs : List (String × JsValue)), d ≤ maxDepth →
        sanitizeValue (getFilterKeys cfg) maxDepth (.vobj fs) d
          = .vobj (fs.map fun kv => (kv.1, JsValue.vstr "[FILTERED]")))
    ∧ (∀ (maxDepth : Nat) (fs : List (String × JsValue)),
        sanitize cfg maxDepth (.vobj fs)
          = .vobj (fs.map fun kv => (kv.1, JsValue.vstr "[FILTERED]"))) := by
  have hkeys : getFilterKeys cfg = [] := by
    rcases h2 with h2 | h2 <;> simp [getFilterKeys, h1, h2]
  have hobj : ∀ (maxDepth d : Nat) (fs : List (String × JsValue)), d ≤ maxDepth →
      sanitizeValue (getFilterKeys cfg) maxDepth (.vobj fs) d
        = .vobj (fs.map fun kv => (kv.1, JsValue.vstr "[FILTERED]")) := by
    intro maxDepth d fs hd
    have hfd : maxDepth + 1 - d = (maxDepth - d) + 1 := by omega
    rw [hkeys, sanitizeValue, hfd, sanitizeGo_vobj]
    simp [filterTest]
  exact ⟨hkeys, fun k => by rw [hkeys]; rfl, hobj,
    fun maxDepth fs => hobj maxDepth 0 fs (by omega)⟩

/-- C10 witness: a key that matches no built-in is filtered anyway. -/
theorem empty_filter_keys_filter_everything_witness :
    sanitize noKeysCfg 10 (.vobj [("anything", .vstr "v")])
      = .vobj [("anything", .vstr "[FILTERED]")] :=
  (empty_filter_keys_filter_everything noKeysCfg rfl (Or.inl rfl)).2.2.2 10
    [("anything", .vstr "v")]

/-- C2 (amended): whenever `init` accepts the options and emits its debug echo,
the echoed credential field is exactly the first 8 characters of the credential
followed by an ellipsis, and when the credential is longer than 11 characters
the echoed field cannot contain the full credential.  (For credentials of at
most 8 characters — and for those of 9 to 11 characters whose tail beyond the
first 8 characters is a prefix of `'...'` — the truncated field still contains
the full credential; see the counterexample.) -/
theorem init_debug_echo_truncates (opts cfg e : CheckendNextConfig)
    (h : init opts = Except.ok (cfg, some e)) :
    e.apiKey = strTake opts.apiKey 8 ++ "..."
    ∧ (11 < opts.apiKey.data.length → jsIncludes e.apiKey opts.apiKey = false) := by
  have he : e = echoOf (mergeDefaults opts) := by
    by_cases h0 : opts.apiKey = ""
    · simp [init, h0] at h
    · unfold init at h
      rw [if_neg h0] at h
      by_cases hd : (mergeDefaults opts).debug = some true
      · rw [if_pos hd] at h
        injection h with h'
        have h2 := congrArg Prod.snd h'
        simp only [Option.some.injEq] at h2
        exact h2.symm
      · rw [if_neg hd] at h
        injection h with h'
        have h2 := congrArg Prod.snd h'
        simp at h2
  have hkey : e.apiKey = strTake opts.apiKey 8 ++ "..." := by rw [he]; rfl
  refine ⟨hkey, fun hlen => ?_⟩
  by_contra hc
  have hc' : jsIncludes e.apiKey opts.apiKey = true := by
    cases hb : jsIncludes e.apiKey opts.apiKey
    · exact absurd hb hc
    · rfl
  have hle : opts.apiKey.data.length ≤ e.apiKey.data.length := lsub_length hc'
  have hdata : e.apiKey.data = opts.apiKey.data.take 8 ++ "...".data := by rw [hkey]; rfl
  have h8 : (opts.apiKey.data.take 8).length ≤ 8 := by
    simp [List.length_take]
  have h3 : ("...".data).length = 3 := by decide
  rw [hdata, List.length_append, h3] at hle
  omega

/-- C2 counterexample: `init` accepts the one-character credential `"k"`, and
the credential field of its debug echo is `"k..."`, which contains the full
credential — the echoed line is not free of the credential for short keys. -/
theorem init_debug_echo_counterexample :
    init shortKeyOpts
      = Except.ok (mergeDefaults shortKeyOpts, some (echoOf (mergeDefaults shortKeyOpts)))
    ∧ (echoOf (mergeDefaults shortKeyOpts)).apiKey = "k..."
    ∧ jsIncludes (echoOf (mergeDefaults shortKeyOpts)).apiKey shortKeyOpts.apiKey
        = true := by
  refine ⟨rfl, by decide, by decide⟩

/-- C2 witness: a 12-character credential is echoed as its first 8 characters
plus an ellipsis, and the echo does not contain the credential. -/
theorem init_debug_echo_truncates_witness :
    (echoOf (mergeDefaults longKeyOpts)).apiKey = strTake longKeyOpts.apiKey 8 ++ "..."
    ∧ (11 < longKeyOpts.apiKey.data.length →
        jsIncludes (echoOf (mergeDefaults longKeyOpts)).apiKey longKeyOpts.apiKey
          = false) :=
  init_debug_echo_truncates longKeyOpts (mergeDefaults longKeyOpts)
    (echoOf (mergeDefaults longKeyOpts)) rfl

/-- C4: with no configured transform `applyBeforeSend` returns the event
unchanged (and logs nothing); a configured chain folds left-to-right starting
from the input event — the concrete chain appending `'1'` then `'2'` turns
message `"msg"` into `"msg12"` — and as soon as a callback returns the drop
signal the final result is the drop signal and no later callback is invoked:
the full chain behaves exactly like the chain truncated right after the
dropping callback. -/
theorem applyBeforeSend_fold_spec :
    (∀ (cfg : CheckendNextConfig) (e : CheckendEvent), cfg.beforeSend = none →
        applyBeforeSend cfg e = (some e, []))
    ∧ (applyBeforeSend msgCfg baseEvent).1 = some { baseEvent with message := "msg12" }
    ∧ (∀ (cfg cfg' : CheckendNextConfig) (cbs₁ cbs₂ : List Callback) (cb : Callback)
        (e ev : CheckendEvent),
        cfg.beforeSend = some (.multi (cbs₁ ++ cb :: cbs₂)) →
        cfg'.beforeSend = some (.multi (cbs₁ ++ [cb])) →
        (runCbs cbs₁ e).1 = some ev →
        cb ev = .drop →
        applyBeforeSend cfg e = (none, (runCbs cbs₁ e).2)
        ∧ applyBeforeSend cfg e = applyBeforeSend cfg' e) := by
  refine ⟨?_, rfl, ?_⟩
  · intro cfg e h
    simp [applyBeforeSend, h]
  · intro cfg cfg' cbs₁ cbs₂ cb e ev h1 h2 h3 h4
    have ha : runCbs cbs₁ e = (some ev, (runCbs cbs₁ e).2) := by rw [← h3]
    have key : ∀ tail : List Callback,
        runCbs (cbs₁ ++ cb :: tail) e = (none, (runCbs cbs₁ e).2) := by
      intro tail
      rw [runCbs, List.foldl_append, List.foldl_cons]
      rw [show List.foldl chainStep (some e, []) cbs₁ = runCbs cbs₁ e from rfl, ha]
      simp only [chainStep, h4]
      exact chainFold_none tail _
    constructor
    · simp only [applyBeforeSend, h1, normalizeBeforeSend]
      exact key cbs₂
    · simp only [applyBeforeSend, h1, h2, normalizeBeforeSend]
      rw [key cbs₂, key []]

/-- C4 witness: an unconfigured chain is the identity on a concrete event. -/
theorem applyBeforeSend_fold_spec_witness :
    applyBeforeSend baseOpts baseEvent = (some baseEvent, []) :=
  applyBeforeSend_fold_spec.1 baseOpts baseEvent rfl

/-- C5: an individual callback that throws does not propagate the exception
(the fold returns normally), does not drop the event, is logged at error level,
and the fold continues over the remaining callbacks with the value that was
current before the throwing callback ran — the final result equals that of the
chain without the throwing callback. -/
theorem applyBeforeSend_throw_noop (cfg cfg' : CheckendNextConfig)
    (cbs₁ cbs₂ : List Callback) (cb : Callback) (e ev : CheckendEvent)
    (h1 : cfg.beforeSend = some (.multi (cbs₁ ++ cb :: cbs₂)))
    (h2 : cfg'.beforeSend = some (.multi (cbs₁ ++ cbs₂)))
    (h3 : (runCbs cbs₁ e).1 = some ev)
    (h4 : cb ev = .thrown) :
    applyBeforeSend cfg e
      = cbs₂.foldl chainStep (some ev, (runCbs cbs₁ e).2 ++ [beforeSendErrorLine])
    ∧ (applyBeforeSend cfg e).1 = (applyBeforeSend cfg' e).1
    ∧ beforeSendErrorLine ∈ (applyBeforeSend cfg e).2 := by
  have ha : runCbs cbs₁ e = (some ev, (runCbs cbs₁ e).2) := by rw [← h3]
  have hfull : applyBeforeSend cfg e
      = cbs₂.foldl chainStep (some ev, (runCbs cbs₁ e).2 ++ [beforeSendErrorLine]) := by
    simp only [applyBeforeSend, h1, normalizeBeforeSend, runCbs, List.foldl_append,
      List.foldl_cons]
    rw [show List.foldl chainStep (some e, []) cbs₁ = runCbs cbs₁ e from rfl, ha]
    simp only [chainStep, h4]
  refine ⟨hfull, ?_, ?_⟩
  · rw [hfull]
    simp only [applyBeforeSend, h2, normalizeBeforeSend, runCbs, List.foldl_append]
    rw [show List.foldl chainStep (some e, []) cbs₁ = runCbs cbs₁ e from rfl, ha]
    exact chainFold_fst cbs₂ (some ev) _ _
  · rw [hfull, chainFold_logs]
    simp

/-- C5 witness: a chain whose only callback throws yields the error log line
(and, by the theorem, the pre-failure event). -/
theorem applyBeforeSend_throw_noop_witness :
    beforeSendErrorLine ∈ (applyBeforeSend throwCfg baseEvent).2 :=
  (applyBeforeSend_throw_noop throwCfg emptyChainCfg [] [] throwCb baseEvent baseEvent
    rfl rfl rfl rfl).2.2

/-- C6: `shouldIgnoreRoute` returns false when the ignored-route list is empty
or absent, and otherwise returns true iff some string rule equals the path or is
a prefix of it, or some pattern rule tests true against it (an OR over all
rules); with rules `['/health']` both `'/health'` and `'/healthcheck'` are
ignored — prefix matching is intentionally loose. -/
theorem shouldIgnoreRoute_spec :
    (∀ (cfg : CheckendNextConfig) (route : String), cfg.ignoredRoutes = none →
        shouldIgnoreRoute cfg route = false)
    ∧ (∀ (cfg : CheckendNextConfig) (route : String), cfg.ignoredRoutes = some [] →
        shouldIgnoreRoute cfg route = false)
    ∧ (∀ (cfg : CheckendNextConfig) (rules : List IgnoreRule) (route : String),
        cfg.ignoredRoutes = some rules →
        (shouldIgnoreRoute cfg route = true
          ↔ ∃ r ∈ rules, routeRuleMatches route r = true))
    ∧ (∀ (route s : String),
        routeRuleMatches route (.strRule s) = (route == s || jsStartsWith route s))
    ∧ (∀ (route : String) (p : String → Bool), routeRuleMatches route (.patRule p) = p route)
    ∧ shouldIgnoreRoute healthCfg "/health" = true
    ∧ shouldIgnoreRoute healthCfg "/healthcheck" = true
    ∧ shouldIgnoreRoute healthCfg "/other" = false := by
  refine ⟨?_, ?_, ?_, fun _ _ => rfl, fun _ _ => rfl, rfl, rfl, rfl⟩
  · intro cfg route h
    simp [shouldIgnoreRoute, h]
  · intro cfg route h
    simp [shouldIgnoreRoute, h]
  · intro cfg rules route h
    cases rules with
    | nil => simp [shouldIgnoreRoute, h]
    | cons r rest => simp [shouldIgnoreRoute, h, List.any_eq_true]

/-- C6 witness: with no ignored-route list every route passes. -/
theorem shouldIgnoreRoute_spec_witness : shouldIgnoreRoute baseOpts "/x" = false :=
  shouldIgnoreRoute_spec.1 baseOpts "/x" rfl

/-- C7: `shouldIgnoreException` returns false when the ignored-exception list is
empty or absent, and otherwise returns true iff some string rule equals the
error's name or occurs inside its message, or some pattern rule tests true
against the composite `"{name}: {message}"` (an OR over all rules); concretely
`['TypeError']` ignores a `TypeError`, and `[/^Error: ECONNRE/]` ignores an
`Error` with message `'ECONNRESET'` but not one with message `'Generic error'`. -/
theorem shouldIgnoreException_spec :
    (∀ (cfg : CheckendNextConfig) (err : JsError), cfg.ignoredExceptions = none →
        shouldIgnoreException cfg err = false)
    ∧ (∀ (cfg : CheckendNextConfig) (err : JsError), cfg.ignoredExceptions = some [] →
        shouldIgnoreException cfg err = false)
    ∧ (∀ (cfg : CheckendNextConfig) (rules : List IgnoreRule) (err : JsError),
        cfg.ignoredExceptions = some rules →
        (shouldIgnoreException cfg err = true ↔ ∃ r ∈ rules, excRuleMatches err r = true))
    ∧ (∀ (err : JsError) (s : String),
        excRuleMatches err (.strRule s) = (err.name == s || jsIncludes err.message s))
    ∧ (∀ (err : JsError) (p : String → Bool),
        excRuleMatches err (.patRule p) = p (err.name ++ ": " ++ err.message))
    ∧ shouldIgnoreException typeErrorCfg typeError = true
    ∧ shouldIgnoreException econnCfg econnError = true
    ∧ shouldIgnoreException econnCfg genericError = false := by
  refine ⟨?_, ?_, ?_, fun _ _ => rfl, fun _ _ => rfl, rfl, by decide, by decide⟩
  · intro cfg err h
    simp [shouldIgnoreException, h]
  · intro cfg err h
    simp [shouldIgnoreException, h]
  · intro cfg rules err h
    cases rules with
    | nil => simp [shouldIgnoreException, h]
    | cons r rest => simp [shouldIgnoreException, h, List.any_eq_true]

/-- C7 witness: with no ignored-exception list every exception passes. -/
theorem shouldIgnoreException_spec_witness :
    shouldIgnoreException baseOpts typeError = false :=
  shouldIgnoreException_spec.1 baseOpts typeError rfl

/-- C8 (amended): a Captured Notice decoded from an intercepted edge payload
reproduces the original event's `errorClass`, `message`, `tags` and
`fingerprint` exactly, provided the `errorClass` is non-empty (an empty class
name falls through the decoder's `|| 'Error'` default to the fallback class;
see the counterexample). -/
theorem capture_roundtrip (error : JsError) (options : NotifyOptions)
    (runtime : String) (h : error.name ≠ "") :
    (decodeCapturedNotice (buildEdgeNotice error options) runtime).errorClass
        = error.name
    ∧ (decodeCapturedNotice (buildEdgeNotice error options) runtime).message
        = error.message
    ∧ (decodeCapturedNotice (buildEdgeNotice error options) runtime).tags
        = options.tags
    ∧ (decodeCapturedNotice (buildEdgeNotice error options) runtime).fingerprint
        = options.fingerprint := by
  refine ⟨?_, ?_, rfl, rfl⟩
  · simp [decodeCapturedNotice, buildEdgeNotice, jsOrStr, h]
  · by_cases hm : error.message = "" <;>
      simp [decodeCapturedNotice, buildEdgeNotice, jsOrStr, hm]

/-- C8 counterexample: an intercepted event whose `errorClass` is the empty
string decodes to the fallback class `'Error'`, so the round-trip is not exact
for it. -/
theorem capture_roundtrip_counterexample :
    (buildEdgeNotice emptyNameError taggedOptions).error_class = ""
    ∧ (decodeCapturedNotice (buildEdgeNotice emptyNameError taggedOptions)
        "edge").errorClass = "Error"
    ∧ (decodeCapturedNotice (buildEdgeNotice emptyNameError taggedOptions)
        "edge").errorClass ≠ (buildEdgeNotice emptyNameError taggedOptions).error_class := by
  refine ⟨rfl, rfl, by decide⟩

/-- C8 witness: the round-trip is exact on a concrete `TypeError` event. -/
theorem capture_roundtrip_witness :
    (decodeCapturedNotice (buildEdgeNotice typeError taggedOptions) "edge").errorClass
        = "TypeError"
    ∧ (decodeCapturedNotice (buildEdgeNotice typeError taggedOptions) "edge").tags
        = some ["t1", "t2"] :=
  ⟨(capture_roundtrip typeError taggedOptions "edge" (by decide)).1,
   (capture_roundtrip typeError taggedOptions "edge" (by decide)).2.2.1⟩

/-- C9: the stack-trace parser yields the empty sequence on `undefined`; on a
string it discards the first line and maps the remaining lines in order through
the stack-line regex — one frame per matching line, none for a non-matching
line, original order preserved; a match without the optional method group gets
the anonymous marker, and the `parseInt(..) || 0` fallback yields 0 on digit
runs that fail to parse; concrete shapes: `at method (file:line:col)`,
`at file:line:col`, a non-matching line, and a full multi-line trace. -/
theorem parseStackTrace_spec :
    parseStackTrace none = []
    ∧ (∀ s : String,
        parseStackTrace (some s) = ((splitOnNl s.data).drop 1).filterMap matchLine)
    ∧ (∀ (line : List Char) (cap : Option (List Char) × List Char × List Char),
        scanMatch line = some cap →
        matchLine line = some
          { method := jsOrStr (String.mk (cap.1.getD [])) "<anonymous>"
            file := jsOrStr (String.mk cap.2.1) "<unknown>"
            number := jsParseIntOr0 cap.2.2 })
    ∧ (∀ (line : List Char) (cap : Option (List Char) × List Char × List Char) (f : Frame),
        scanMatch line = some cap → cap.1 = none → matchLine line = some f →
        f.method = "<anonymous>")
    ∧ (∀ ds : List Char, (ds.isEmpty || !ds.all isDigitC) = true → jsParseIntOr0 ds = 0)
    ∧ matchLine "    at foo (file.js:10:5)".data
        = some { file := "file.js", method := "foo", number := 10 }
    ∧ matchLine "    at file.js:7:3".data
        = some { file := "file.js", method := "<anonymous>", number := 7 }
    ∧ matchLine "Error: boom".data = none
    ∧ parseStackTrace
        (some "Error: boom\n    at foo (file.js:10:5)\n garbage line\n    at file.js:7:3")
      = [{ file := "file.js", method := "foo", number := 10 },
         { file := "file.js", method := "<anonymous>", number := 7 }] := by
  refine ⟨rfl, ?_, ?_, ?_, ?_, by decide, by decide, by decide, by decide⟩
  · intro s
    simp only [parseStackTrace]
    exact (foldl_push_filterMap _ []).trans (by simp)
  · intro line cap h
    simp [matchLine, h]
  · intro line cap f h h1 hf
    simp only [matchLine, h, Option.map_some', Option.some.injEq] at hf
    subst hf
    simp [h1, jsOrStr]
  · intro ds h
    simp only [Bool.or_eq_true, Bool.not_eq_true'] at h
    rcases h with h | h <;> simp [jsParseIntOr0, h]

/-- C9 witness: the parser of an absent stack is the empty frame list. -/
theorem parseStackTrace_spec_witness : parseStackTrace none = [] :=
  parseStackTrace_spec.1

end Checkend
